import Mathlib

/-!
Verification development for the dj_conv DJ-library converter.

The Lean definitions below are a shallow embedding of the Python sources:

* `src/domain/entities/{cue_point,loop,track,playlist,collection}.py` — the
  vendor-neutral domain model.  Python `dict`s (which preserve insertion
  order) are modelled as ordered association lists with `dictSet`/`dictGet`;
  `uuid4()` identifiers are modelled as natural numbers drawn from an
  explicit fresh-id counter.
* `src/domain/services/conversion_service.py` — the transformation service
  (`convert_hot_cues_to_memory_cues`, `merge_collections`).
* `src/infrastructure/adapters/importers/traktor_importer.py` — the playlist
  walker and track-reference resolution of the Traktor importer.
* `src/infrastructure/adapters/exporters/rekordbox_exporter.py` — the
  Rekordbox document builder.

Python floats are IEEE-754 binary64 values; where the code performs float
arithmetic whose rounding matters (`START/1000.0` on import,
`int(position*1000)` on export) we model it exactly with `flDouble`,
round-to-nearest-even at 53 significant bits, which is exact for the normal
range of binary64 (all values concerned lie far inside it).
-/

namespace DJConv

/-- CueType enum from `src/domain/entities/cue_point.py`. -/
inductive CueType where
  | HOT_CUE
  | MEMORY_CUE
  | GRID_MARKER
  | LOOP_IN
  | LOOP_OUT
  | LOAD_MARKER
  | FADE_IN
  | FADE_OUT
deriving DecidableEq, Repr

/-- CuePoint dataclass from `src/domain/entities/cue_point.py`.  `position`
is in seconds (a Python float, modelled as an exact rational). -/
structure CuePoint where
  id : Nat
  name : String
  position : ℚ
  type : CueType
  color : String
  index : Int
deriving DecidableEq, Repr

/-- Method `CuePoint.to_memory_cue` (cue_point.py lines 37-40): sets the
type to MEMORY_CUE and returns the cue. -/
def CuePoint.to_memory_cue (c : CuePoint) : CuePoint :=
  { c with type := CueType.MEMORY_CUE }

/-- LoopType enum from `src/domain/entities/loop.py`. -/
inductive LoopType where
  | REGULAR
  | SAVED
  | AUTOLOOP
deriving DecidableEq, Repr

/-- Loop dataclass from `src/domain/entities/loop.py`. -/
structure Loop where
  id : Nat
  name : String
  start_position : ℚ
  end_position : ℚ
  type : LoopType
  color : String
  index : Int
deriving DecidableEq, Repr

/-- Track dataclass from `src/domain/entities/track.py`.  Datetime fields
are carried as opaque strings; `beat_grid` entries are opaque passthrough
values. -/
structure Track where
  id : Nat
  title : String
  artist : String
  album : String
  genre : String
  bpm : ℚ
  key : String
  duration : ℚ
  file_path : String
  file_size : Nat
  bitrate : Nat
  sample_rate : Nat
  comment : String
  year : Option Int
  rating : Int
  import_date : String
  last_played : Option String
  play_count : Nat
  cue_points : List CuePoint
  loops : List Loop
  beat_grid : List String
  custom_tags : List (String × String)
deriving DecidableEq, Repr

/-- Playlist dataclass from `src/domain/entities/playlist.py`.  It is a
nested inductive because `children` owns further playlists. -/
inductive Playlist where
  | mk (id : Nat) (name : String) (description : String)
       (track_ids : List Nat) (parent_id : Option Nat)
       (children : List Playlist)

/-- Projection for the `id` field of `Playlist`. -/
def Playlist.id : Playlist → Nat
  | .mk i _ _ _ _ _ => i

/-- Projection for the `name` field of `Playlist`. -/
def Playlist.name : Playlist → String
  | .mk _ n _ _ _ _ => n

/-- Projection for the `description` field of `Playlist`. -/
def Playlist.description : Playlist → String
  | .mk _ _ d _ _ _ => d

/-- Projection for the `track_ids` field of `Playlist`. -/
def Playlist.track_ids : Playlist → List Nat
  | .mk _ _ _ ts _ _ => ts

/-- Projection for the `parent_id` field of `Playlist`. -/
def Playlist.parent_id : Playlist → Option Nat
  | .mk _ _ _ _ p _ => p

/-- Projection for the `children` field of `Playlist`. -/
def Playlist.children : Playlist → List Playlist
  | .mk _ _ _ _ _ ch => ch

/-- Method `Playlist.add_track` (playlist.py lines 25-28): appends the id
unless it is already present. -/
def Playlist.add_track : Playlist → Nat → Playlist
  | .mk i n d ts p ch, tid =>
      if tid ∈ ts then .mk i n d ts p ch else .mk i n d (ts ++ [tid]) p ch

/-- Ordered-dictionary update, modelling `d[k] = v` on a Python dict:
an existing key is overwritten in place, a new key is appended. -/
def dictSet {κ α : Type} [DecidableEq κ] : List (κ × α) → κ → α → List (κ × α)
  | [], k, v => [(k, v)]
  | (k', v') :: rest, k, v =>
      if k' = k then (k, v) :: rest else (k', v') :: dictSet rest k v

/-- Ordered-dictionary lookup, modelling `d.get(k)` on a Python dict. -/
def dictGet {κ α : Type} [DecidableEq κ] : List (κ × α) → κ → Option α
  | [], _ => none
  | (k', v') :: rest, k => if k' = k then some v' else dictGet rest k

/-- Collection dataclass from `src/domain/entities/collection.py`.  The two
Python dicts are insertion-ordered association lists. -/
structure Collection where
  name : String
  tracks : List (Nat × Track)
  playlists : List (Nat × Playlist)
  root_playlists : List Nat

/-- Method `Collection.add_track` (collection.py lines 22-25). -/
def Collection.add_track (c : Collection) (t : Track) : Collection :=
  { c with tracks := dictSet c.tracks t.id t }

/-- Method `Collection.add_playlist` (collection.py lines 31-36): stores the
playlist and records it as a root when `parent_id` is `None`. -/
def Collection.add_playlist (c : Collection) (p : Playlist) : Collection :=
  { c with
      playlists := dictSet c.playlists p.id p,
      root_playlists :=
        if p.parent_id = none then c.root_playlists ++ [p.id]
        else c.root_playlists }

/-- Method `Collection.get_track` (collection.py lines 27-29). -/
def Collection.get_track (c : Collection) (tid : Nat) : Option Track :=
  dictGet c.tracks tid

/-- Method `Collection.get_playlist` (collection.py lines 38-40). -/
def Collection.get_playlist (c : Collection) (pid : Nat) : Option Playlist :=
  dictGet c.playlists pid

/-- One cue of `ConversionService.convert_hot_cues_to_memory_cues`
(conversion_service.py lines 33-37): a HOT_CUE is sent through
`to_memory_cue`, any other cue passes through unchanged. -/
def convertCuePoint (c : CuePoint) : CuePoint :=
  if c.type = CueType.HOT_CUE then c.to_memory_cue else c

/-- Per-track body of `convert_hot_cues_to_memory_cues`
(conversion_service.py lines 31-38). -/
def convertTrackCues (t : Track) : Track :=
  { t with cue_points := t.cue_points.map convertCuePoint }

/-- Method `ConversionService.convert_hot_cues_to_memory_cues`
(conversion_service.py lines 21-40): rewrites every track's cue list. -/
def convert_hot_cues_to_memory_cues (col : Collection) : Collection :=
  { col with tracks := col.tracks.map (fun kv => (kv.1, convertTrackCues kv.2)) }

/-- Rounding of a rational to an integer, ties to even — the rounding used
at the significand of IEEE-754 binary64 operations. -/
def roundHalfEven (s : ℚ) : ℤ :=
  let f : ℤ := ⌊s⌋
  let r : ℚ := s - f
  if r < 1 / 2 then f
  else if 1 / 2 < r then f + 1
  else if f % 2 = 0 then f else f + 1

/-- Rounding of an exact rational to the nearest IEEE-754 binary64 value
(round-to-nearest, ties-to-even), modelled exactly for the normal range of
the format; every float produced by the code under verification lies far
inside that range.  Each Python float operation `x op y` is modelled as
`flDouble (x op y)` on exact rationals, which is precisely the IEEE
correctly-rounded semantics Python uses. -/
def flDouble (q : ℚ) : ℚ :=
  if q = 0 then 0
  else
    (if q < 0 then -1 else 1)
      * (roundHalfEven (|q| * (2 : ℚ) ^ ((52 : ℤ) - Int.log 2 |q|)) : ℚ)
      * (2 : ℚ) ^ (Int.log 2 |q| - 52)

/-- Truncation of a float to an integer, modelling Python `int(x)`
(truncates toward zero). -/
def pyTrunc (q : ℚ) : ℤ :=
  if 0 ≤ q then ⌊q⌋ else ⌈q⌉

/-- Evaluation rule for `roundHalfEven` when the fractional part is below
one half. -/
theorem roundHalfEven_eq_floor {s : ℚ} {f : ℤ} (hf : ⌊s⌋ = f)
    (hr : s - f < 1 / 2) : roundHalfEven s = f := by
  unfold roundHalfEven
  rw [hf, if_pos hr]

/-- Evaluation rule for `roundHalfEven` when the fractional part is above
one half. -/
theorem roundHalfEven_eq_ceil {s : ℚ} {f : ℤ} (hf : ⌊s⌋ = f)
    (hr : 1 / 2 < s - f) : roundHalfEven s = f + 1 := by
  unfold roundHalfEven
  rw [hf, if_neg (by linarith), if_pos hr]

/-- Evaluation rule for `flDouble` on a positive rational once its binade
`[2^e, 2^(e+1))` and rounded significand are known. -/
theorem flDouble_eval {q : ℚ} {e m : ℤ} (hq : 0 < q)
    (he1 : (2 : ℚ) ^ e ≤ q) (he2 : q < (2 : ℚ) ^ (e + 1))
    (hm : roundHalfEven (q * (2 : ℚ) ^ ((52 : ℤ) - e)) = m) :
    flDouble q = (m : ℚ) * (2 : ℚ) ^ (e - 52) := by
  have hb : (1 : ℕ) < 2 := by norm_num
  have hlog : Int.log 2 |q| = e := by
    rw [abs_of_pos hq]
    have h1 : e ≤ Int.log 2 q := by
      refine (Int.zpow_le_iff_le_log hb hq).mp ?_
      simpa using he1
    have h2 : Int.log 2 q < e + 1 := by
      refine (Int.lt_zpow_iff_log_lt hb hq).mp ?_
      simpa using he2
    omega
  unfold flDouble
  rw [if_neg hq.ne', hlog, abs_of_pos hq, hm, if_neg (not_lt.mpr hq.le)]
  ring

/-- Cue position computed by `TraktorImporter._parse_cue_point`
(traktor_importer.py line 158): `float(cue_element.get('START','0')) /
1000.0` for an integer millisecond attribute `ms` — the decimal-string
parse is exact for integers below 2^53 and the division is correctly
rounded. -/
def importCuePosition (ms : Nat) : ℚ :=
  flDouble ((ms : ℚ) / 1000)

/-- Millisecond value computed by
`RekordboxExporter._add_cue_points_to_track` (rekordbox_exporter.py line
126): `int(cue.position * 1000)` — a correctly rounded binary64
multiplication followed by integer truncation. -/
def exportCueStartMs (position : ℚ) : ℤ :=
  pyTrunc (flDouble (position * 1000))

/-- Millisecond round trip: import a cue at `ms` milliseconds (giving a
position in seconds), then export it back to milliseconds. -/
def cueRoundTrip (ms : Nat) : ℤ :=
  exportCueStartMs (importCuePosition ms)

/-- Attribute value of the emitted Rekordbox XML.  The source renders every
attribute to a string (`str(...)`); keeping the typed value in the tree
loses nothing because the rendering is a fixed injective function per
constructor, so equality of typed trees coincides with equality of the
serialized bytes. -/
inductive AVal where
  | s (v : String)
  | i (v : ℤ)
  | q (v : ℚ)

/-- Element tree built by the exporter (an `xml.etree.ElementTree` value:
tag, attribute list in creation order, child list in creation order). -/
inductive XNode where
  | el (tag : String) (attrs : List (String × AVal)) (children : List XNode)

/-- Projection for the tag of an `XNode`. -/
def XNode.tag : XNode → String
  | .el t _ _ => t

/-- Projection for the attribute list of an `XNode`. -/
def XNode.attrs : XNode → List (String × AVal)
  | .el _ a _ => a

/-- Projection for the child list of an `XNode`. -/
def XNode.children : XNode → List XNode
  | .el _ _ ch => ch

/-- Identifier rendering `str(track.id).replace('-', '')`
(rekordbox_exporter.py lines 89 and 178): the UUID's compact hexadecimal
form, modelled as the hex digits of the numeric id — injective, and the
same function is used for the TRACK record and the playlist key. -/
def compactId (n : Nat) : String :=
  (Nat.toDigits 16 n).asString

/-- Method `RekordboxExporter._format_location` (rekordbox_exporter.py
lines 105-115), non-Windows branch (`os.name != 'nt'`): the host the
converter runs on is modelled as POSIX throughout. -/
def formatLocation (file_path : String) : String :=
  "file://" ++ file_path

/-- POSITION_MARK element for one cue point
(`_add_cue_points_to_track`, rekordbox_exporter.py lines 121-134).
`convert` is `options.get('convert_hot_cues_to_memory_cues', False)`. -/
def positionMarkOfCue (convert : Bool) (c : CuePoint) : XNode :=
  .el "POSITION_MARK"
    [("Name", .s c.name),
     ("Type", .i (if c.type = CueType.HOT_CUE ∧ convert = false then 1 else 0)),
     ("Start", .i (exportCueStartMs c.position)),
     ("Num", .i (if 0 ≤ c.index then c.index else 0))]
    []

/-- POSITION_MARK element for one loop
(`_add_cue_points_to_track`, rekordbox_exporter.py lines 137-148). -/
def positionMarkOfLoop (lp : Loop) : XNode :=
  .el "POSITION_MARK"
    [("Name", .s lp.name),
     ("Type", .i 2),
     ("Start", .i (exportCueStartMs lp.start_position)),
     ("End", .i (exportCueStartMs lp.end_position)),
     ("Num", .i (if 0 ≤ lp.index then lp.index else 0))]
    []

/-- TRACK element of the COLLECTION section
(`_add_track_to_collection`, rekordbox_exporter.py lines 85-103).  `now` is
the `datetime.now().strftime('%Y-%m-%d')` stamp, passed in as a parameter
of the run. -/
def trackElem (now : String) (convert : Bool) (t : Track) : XNode :=
  .el "TRACK"
    [("TrackID", .s (compactId t.id)),
     ("Name", .s t.title),
     ("Artist", .s t.artist),
     ("Album", .s t.album),
     ("Genre", .s t.genre),
     ("TotalTime", .i (pyTrunc t.duration)),
     ("Location", .s (formatLocation t.file_path)),
     ("Rating", .i t.rating),
     ("Tonality", .s t.key),
     ("AverageBpm", .q t.bpm),
     ("DateAdded", .s now)]
    (t.cue_points.map (positionMarkOfCue convert) ++ t.loops.map positionMarkOfLoop)

/-- Child TRACK references of a leaf playlist node
(`_add_playlist_to_node`, rekordbox_exporter.py lines 174-179): one
reference per track id, skipping ids with no track in the collection. -/
def playlistTrackRefs (col : Collection) (tids : List Nat) : List XNode :=
  tids.filterMap (fun tid =>
    (dictGet col.tracks tid).map (fun _ =>
      XNode.el "TRACK" [("Key", AVal.s (compactId tid))] []))

/-- Method `RekordboxExporter._add_playlist_to_node`
(rekordbox_exporter.py lines 150-179): a playlist with children becomes a
folder NODE recursing into the children, one without becomes a leaf NODE
whose declared `Entries` is the length of `track_ids`.  The Python
recursion is structural on the playlist tree; `fuel` bounds its depth and
is immaterial whenever it exceeds the tree height. -/
def addPlaylistToNode : Nat → Collection → Playlist → XNode
  | 0, _, _ => .el "NODE" [] []
  | fuel + 1, col, .mk _ name _ tids _ children =>
      match children with
      | [] =>
          .el "NODE"
            [("Type", .i 1), ("Name", .s name), ("KeyType", .i 0),
             ("Entries", .i (tids.length : ℤ))]
            (playlistTrackRefs col tids)
      | c :: cs =>
          .el "NODE"
            [("Type", .i 0), ("Name", .s name),
             ("Count", .i ((c :: cs).length : ℤ))]
            ((c :: cs).map (addPlaylistToNode fuel col))

/-- Document builder of `RekordboxExporter.export_library`
(rekordbox_exporter.py lines 31-67): root element, product stamp,
COLLECTION of TRACK records in the tracks dict's order, and the PLAYLISTS
tree grown from `root_playlists` (ids with no playlist are skipped). -/
def exportDoc (fuel : Nat) (col : Collection) (convert : Bool) (now : String) : XNode :=
  .el "DJ_PLAYLISTS"
    [("Version", .s "1.0.0"),
     ("xmlns:xsi", .s "http://www.w3.org/2001/XMLSchema-instance"),
     ("xsi:noNamespaceSchemaLocation",
      .s "https://raw.githubusercontent.com/rekordbox/xml-schema/master/rekordbox_xml_schema.xsd")]
    [.el "PRODUCT"
       [("Name", .s "DJ Library Converter"), ("Version", .s "1.0.0"),
        ("Company", .s "DJ Library Converter")] [],
     .el "COLLECTION" [("Entries", .i (col.tracks.length : ℤ))]
       (col.tracks.map (fun kv => trackElem now convert kv.2)),
     .el "PLAYLISTS" []
       [.el "NODE"
          [("Type", .i 0), ("Name", .s "ROOT"),
           ("Count", .i (col.root_playlists.length : ℤ))]
          (col.root_playlists.filterMap (fun pid =>
            (dictGet col.playlists pid).map (addPlaylistToNode fuel col)))]]

/-- Rendering of one typed attribute value to text. -/
def renderAVal : AVal → String
  | .s v => v
  | .i v => toString v
  | .q v => toString v

/-- Deterministic text rendering of the element tree, standing for
`minidom.toprettyxml` (rekordbox_exporter.py lines 73-75): the exact
whitespace of the pretty-printer is irrelevant to every statement below,
which only ever needs that the written text is a function of the tree. -/
def serializeX : Nat → XNode → String
  | 0, _ => ""
  | fuel + 1, .el tag attrs children =>
      "<" ++ tag
        ++ (attrs.map (fun a => " " ++ a.1 ++ "=\"" ++ renderAVal a.2 ++ "\"")).foldl
             (fun acc s => acc ++ s) ""
        ++ ">"
        ++ (children.map (serializeX fuel)).foldl (fun acc s => acc ++ s) ""
        ++ "</" ++ tag ++ ">"

/-- Fault model for the try/except of `export_library`
(rekordbox_exporter.py lines 31-83): either the run completes, or an
exception is raised while serializing (before the destination is opened),
or an I/O exception is raised after `k` characters of the document have
reached the destination file, which `open(file_path, 'w')` had already
truncated. -/
inductive IOFault where
  | ok
  | atSerialize
  | atWrite (k : Nat)

/-- Method `RekordboxExporter.export_library` (rekordbox_exporter.py lines
27-83) including its I/O tail: builds the document, pretty-prints it and
writes it with `open(file_path, 'w')` directly on the destination path;
every exception is caught and turned into a `False` result (lines 81-83).
`prev` is the destination's content before the call (`none` when the file
does not exist); the returned pair is the result value and the
destination's content after the call. -/
def export_library (fuel : Nat) (col : Collection) (convert : Bool)
    (now : String) (prev : Option String) (fault : IOFault) :
    Bool × Option String :=
  let content := serializeX fuel (exportDoc fuel col convert now)
  match fault with
  | .ok => (true, some content)
  | .atSerialize => (false, prev)
  | .atWrite k => (false, some (content.take k))

/-- Parsed XML element of the source NML document (tag, attributes,
children), the shape `xml.etree.ElementTree` hands to the importer. -/
inductive Xml where
  | el (tag : String) (attrs : List (String × String)) (children : List Xml)

/-- Projection for the tag of an `Xml` element. -/
def Xml.tag : Xml → String
  | .el t _ _ => t

/-- Projection for the attribute list of an `Xml` element. -/
def Xml.attrs : Xml → List (String × String)
  | .el _ a _ => a

/-- Projection for the child list of an `Xml` element. -/
def Xml.children : Xml → List Xml
  | .el _ _ ch => ch

/-- Attribute access `element.get(key, default)`. -/
def Xml.get (x : Xml) (key dflt : String) : String :=
  match dictGet x.attrs key with
  | some v => v
  | none => dflt

/-- Lookup `element.find('./TAG')`: the first direct child with the tag. -/
def Xml.findChild (x : Xml) (tag : String) : Option Xml :=
  x.children.find? (fun c => c.tag = tag)

/-- Lookup `element.findall('./TAG')`: all direct children with the tag. -/
def Xml.findChildren (x : Xml) (tag : String) : List Xml :=
  x.children.filter (fun c => c.tag = tag)

/-- Lookup `element.find('.//TAG')` over a child list: first match in
document (preorder) order among all descendants.  `fuel` bounds the
descent depth. -/
def findDescList : Nat → List Xml → String → Option Xml
  | 0, _, _ => none
  | _ + 1, [], _ => none
  | fuel + 1, c :: rest, tag =>
      if c.tag = tag then some c
      else
        match findDescList fuel c.children tag with
        | some r => some r
        | none => findDescList fuel rest tag

/-- Worker for `pySplit`, walking the character list; `fuel` only needs to
exceed the list length because every step consumes at least one
character. -/
def pySplitAux (sep : List Char) : Nat → List Char → List Char → List (List Char)
  | 0, cur, s => [cur.reverse ++ s]
  | fuel + 1, cur, s =>
      match s with
      | [] => [cur.reverse]
      | c :: rest =>
          if sep.isPrefixOf s then
            cur.reverse :: pySplitAux sep fuel [] (s.drop sep.length)
          else
            pySplitAux sep fuel (c :: cur) rest

/-- Python `s.split(sep)` for a non-empty separator: non-overlapping
occurrences, scanned left to right (`String.splitOn` has the same
semantics but is replaced by this structurally recursive version). -/
def pySplit (s sep : String) : List String :=
  (pySplitAux sep.data s.data.length [] s.data).map (fun l => String.mk l)

/-- Python `s.endswith(suffix)` (an empty suffix matches everything). -/
def pyEndsWith (s suffix : String) : Bool :=
  suffix.data.isSuffixOf s.data

/-- Track-reference resolution of `_process_playlist_node`
(traktor_importer.py lines 271-287): method 1 scans
`collection.tracks.values()` for an exact match of the stored
`traktor_path` custom tag against the reference string; only when that
finds nothing, method 2 rescans for the first track whose `file_path` ends
with the reference's filename component.  Returns the matched track's
`id` field. -/
def resolveTrackRef (tracks : List (Nat × Track)) (track_key file_name : String) :
    Option Nat :=
  match tracks.find? (fun kv =>
      dictGet kv.2.custom_tags "traktor_path" = some track_key) with
  | some kv => some kv.2.id
  | none =>
      match tracks.find? (fun kv => pyEndsWith kv.2.file_path file_name) with
      | some kv => some kv.2.id
      | none => none

/-- In-place mutation `collection.get_playlist(pid)` followed by a method
call on the returned object: the playlist stored under `pid` is replaced
by its image under `f`; a missing id leaves the collection unchanged. -/
def updatePlaylist (col : Collection) (pid : Nat) (f : Playlist → Playlist) :
    Collection :=
  match dictGet col.playlists pid with
  | none => col
  | some p => { col with playlists := dictSet col.playlists pid (f p) }

/-- One ENTRY of a PLAYLIST node (`_process_playlist_node`,
traktor_importer.py lines 250-291): reads PRIMARYKEY's KEY, applies the
guards (`continue` on an empty key or fewer than two `/:`-separated
parts), resolves the reference and, on success, `add_track`s the id onto
the playlist stored in the collection.  The locals `volume`/`dir_path`/
`file_path` recomputed by the source (lines 264-269) are dead for the
matching itself, which only uses the raw key and the filename component.
Every failure path drops the entry and leaves the collection unchanged. -/
def processEntry (col : Collection) (playlist_id : Nat) (entry : Xml) : Collection :=
  match entry.findChild "PRIMARYKEY" with
  | none => col
  | some loc =>
      let track_key := loc.get "KEY" ""
      if track_key = "" then col
      else
        let parts := pySplit track_key "/:"
        if parts.length < 2 then col
        else
          let file_name := parts.getLastD ""
          match resolveTrackRef col.tracks track_key file_name with
          | none => col
          | some tid => updatePlaylist col playlist_id (fun p => p.add_track tid)

/-- Method `TraktorImporter._process_playlist_node` (traktor_importer.py
lines 213-292) with the collection and the uuid4 supply threaded as state:
a FOLDER node becomes a `Playlist` (no children recorded by the source —
only the child's `parent_id` back-reference is set) and recursion goes
through SUBNODES when present, else through direct NODE children; a
PLAYLIST node becomes a `Playlist` and its PLAYLIST element's entries are
resolved onto it; any other node type is ignored.  `fuel` bounds the
recursion depth of the source's structural recursion. -/
def processPlaylistNode : Nat → Xml → Option Nat → Collection × Nat → Collection × Nat
  | 0, _, _, st => st
  | fuel + 1, node, parent_id, (col, g) =>
      let node_type := node.get "TYPE" ""
      let node_name := node.get "NAME" ""
      if node_type = "FOLDER" then
        let col := col.add_playlist (.mk g node_name "" [] parent_id [])
        let subs :=
          match node.findChild "SUBNODES" with
          | some sn => sn.findChildren "NODE"
          | none => node.findChildren "NODE"
        subs.foldl (fun st c => processPlaylistNode fuel c (some g) st) (col, g + 1)
      else if node_type = "PLAYLIST" then
        let col := col.add_playlist (.mk g node_name "" [] parent_id [])
        match node.findChild "PLAYLIST" with
        | none => (col, g + 1)
        | some pe =>
            ((pe.findChildren "ENTRY").foldl (fun c e => processEntry c g e) col,
             g + 1)
      else
        (col, g)

/-- Method `TraktorImporter._import_playlists` (traktor_importer.py lines
198-211): finds the PLAYLISTS section anywhere below the root, then
processes each of its direct NODE children with no parent. -/
def importPlaylists (fuel : Nat) (root : Xml) (st : Collection × Nat) :
    Collection × Nat :=
  match findDescList fuel root.children "PLAYLISTS" with
  | none => st
  | some pnode =>
      (pnode.findChildren "NODE").foldl
        (fun s n => processPlaylistNode fuel n none s) st

/-- Fresh empty collection `Collection(name="Traktor Collection")` created
by `import_library` (traktor_importer.py line 48). -/
def emptyTraktorCollection : Collection :=
  { name := "Traktor Collection", tracks := [], playlists := [],
    root_playlists := [] }

/-- Lookup `next((t for t in target.tracks.values() if t.file_path ==
track.file_path), None)` (conversion_service.py lines 59-62): the first
track of the target whose file path equals `path` exactly. -/
def findExistingByPath (tracks : List (Nat × Track)) (path : String) : Option Track :=
  (tracks.map Prod.snd).find? (fun t => t.file_path = path)

/-- Deep copy of a source track performed by `merge_collections`
(conversion_service.py lines 68-87): the listed scalar fields and the
cue/loop/grid/tag containers are copied, while the constructor defaults
supply a fresh id, a new import timestamp, no last-played value and a zero
play count. -/
def copyTrack (newId : Nat) (now : String) (t : Track) : Track :=
  { t with id := newId, import_date := now, last_played := none, play_count := 0 }

/-- Track loop of `merge_collections` (conversion_service.py lines 57-89):
walks the source tracks in dict order, matching each against the current
target by file path; a match maps the source id to the existing track's
id, a miss copies the track under a fresh id.  Returns the grown target,
the id-remapping table and the advanced id supply. -/
def mergeTracksAux (now : String) :
    List (Nat × Track) → Collection → List (Nat × Nat) → Nat →
    Collection × List (Nat × Nat) × Nat
  | [], tgt, mapping, g => (tgt, mapping, g)
  | (sid, st) :: rest, tgt, mapping, g =>
      match findExistingByPath tgt.tracks st.file_path with
      | some existing =>
          mergeTracksAux now rest tgt (dictSet mapping sid existing.id) g
      | none =>
          mergeTracksAux now rest (tgt.add_track (copyTrack g now st))
            (dictSet mapping sid g) (g + 1)

/-- Playlist loop of `merge_collections` (conversion_service.py lines
92-103): every source playlist is rebuilt in the target with its track-id
list translated through the remapping table (`[id_mapping.get(tid) for tid
in playlist.track_ids if tid in id_mapping]`), no parent and no
children. -/
def mergePlaylistsAux :
    List (Nat × Playlist) → Collection → List (Nat × Nat) → Nat →
    Collection × Nat
  | [], tgt, _, g => (tgt, g)
  | (_, pl) :: rest, tgt, mapping, g =>
      let np : Playlist :=
        .mk g pl.name pl.description
          (pl.track_ids.filterMap (fun tid => dictGet mapping tid)) none []
      mergePlaylistsAux rest (tgt.add_playlist np) mapping (g + 1)

/-- Method `ConversionService.merge_collections` (conversion_service.py
lines 42-105).  `g` is the uuid4 supply (fresh ids are `g`, `g+1`, …) and
`now` the import timestamp of copies. -/
def merge_collections (source target : Collection) (g : Nat) (now : String) :
    Collection :=
  let r := mergeTracksAux now source.tracks target [] g
  (mergePlaylistsAux source.playlists r.1 r.2.1 r.2.2).1

/-- Helper building a `Track` the way the Python constructor defaults do:
only id, file path, custom tags and cue list vary in the inputs used
below. -/
def mkTrack (id : Nat) (file_path : String) (tags : List (String × String))
    (cues : List CuePoint) : Track :=
  { id := id, title := "", artist := "", album := "", genre := "", bpm := 0,
    key := "", duration := 0, file_path := file_path, file_size := 0,
    bitrate := 0, sample_rate := 0, comment := "", year := none, rating := 0,
    import_date := "", last_played := none, play_count := 0,
    cue_points := cues, loops := [], beat_grid := [], custom_tags := tags }

/-- Mapping a list by an idempotent function twice is the same as mapping
once. -/
theorem map_idem {α : Type} (f : α → α) (hf : ∀ a, f (f a) = f a) :
    ∀ l : List α, (l.map f).map f = l.map f := by
  intro l
  induction l with
  | nil => rfl
  | cons a l ih => simp [hf a, ih]

/-- One application of `convertCuePoint` settles the cue: a second one
changes nothing. -/
theorem convertCuePoint_idem (c : CuePoint) :
    convertCuePoint (convertCuePoint c) = convertCuePoint c := by
  unfold convertCuePoint CuePoint.to_memory_cue
  by_cases h : c.type = CueType.HOT_CUE <;> simp [h]

/-- The converted cue's type is MEMORY_CUE exactly when the cue was a hot
cue, and the original type otherwise. -/
theorem convertCuePoint_type (c : CuePoint) :
    (convertCuePoint c).type =
      if c.type = CueType.HOT_CUE then CueType.MEMORY_CUE else c.type := by
  unfold convertCuePoint CuePoint.to_memory_cue
  by_cases h : c.type = CueType.HOT_CUE <;> simp [h]

/-- Converting a track's cues twice settles after the first pass. -/
theorem convertTrackCues_idem (t : Track) :
    convertTrackCues (convertTrackCues t) = convertTrackCues t := by
  show ({ t with cue_points := (t.cue_points.map convertCuePoint).map convertCuePoint } : Track)
      = { t with cue_points := t.cue_points.map convertCuePoint }
  rw [map_idem convertCuePoint convertCuePoint_idem]

/-- Claim C6: `convert_hot_cues_to_memory_cues` is idempotent, and on every
collection it sends each HOT_CUE cue to MEMORY_CUE while leaving the type
of every non-HOT_CUE cue (MEMORY_CUE, GRID_MARKER, …) unchanged. -/
theorem claim_C6_convert_idempotent_only_hot :
    (∀ col : Collection,
        convert_hot_cues_to_memory_cues (convert_hot_cues_to_memory_cues col)
          = convert_hot_cues_to_memory_cues col)
    ∧ (∀ col : Collection,
        (convert_hot_cues_to_memory_cues col).tracks.map
            (fun kv => (kv.1, kv.2.cue_points.map CuePoint.type))
          = col.tracks.map (fun kv => (kv.1, kv.2.cue_points.map (fun c =>
              if c.type = CueType.HOT_CUE then CueType.MEMORY_CUE else c.type)))) := by
  constructor
  · intro col
    show Collection.mk col.name
        ((col.tracks.map (fun kv => (kv.1, convertTrackCues kv.2))).map
          (fun kv => (kv.1, convertTrackCues kv.2)))
        col.playlists col.root_playlists
      = Collection.mk col.name
        (col.tracks.map (fun kv => (kv.1, convertTrackCues kv.2)))
        col.playlists col.root_playlists
    rw [map_idem (fun kv => (kv.1, convertTrackCues kv.2))
      (fun kv => by simp [convertTrackCues_idem])]
  · intro col
    show (col.tracks.map (fun kv => (kv.1, convertTrackCues kv.2))).map
        (fun kv => (kv.1, kv.2.cue_points.map CuePoint.type))
      = col.tracks.map (fun kv => (kv.1, kv.2.cue_points.map (fun c =>
          if c.type = CueType.HOT_CUE then CueType.MEMORY_CUE else c.type)))
    rw [List.map_map]
    apply List.map_congr_left
    intro kv _
    show (kv.1, (kv.2.cue_points.map convertCuePoint).map CuePoint.type)
      = (kv.1, kv.2.cue_points.map (fun c =>
          if c.type = CueType.HOT_CUE then CueType.MEMORY_CUE else c.type))
    rw [List.map_map]
    exact congrArg (fun l => (kv.1, l))
      (List.map_congr_left (fun c _ => convertCuePoint_type c))

/-- Track with its cue list removed: the projection of every field the
cue-type rewrite must not touch. -/
def trackSansCues (t : Track) : Track :=
  { t with cue_points := [] }

/-- Cue with its type removed: the projection of every cue field the
rewrite must not touch. -/
def cueFrame (c : CuePoint) : Nat × String × ℚ × String × Int :=
  (c.id, c.name, c.position, c.color, c.index)

/-- Claim C10: converting a hot cue changes only the cue's type —
`to_memory_cue` keeps id, name, position, color and index and sets the
type to MEMORY_CUE, and `convert_hot_cues_to_memory_cues` keeps the
collection's name, playlists, root list, every non-cue track field
(including loops and the beat grid) and every cue's non-type fields. -/
theorem claim_C10_conversion_frame :
    (∀ c : CuePoint,
        cueFrame c.to_memory_cue = cueFrame c
        ∧ c.to_memory_cue.type = CueType.MEMORY_CUE)
    ∧ (∀ col : Collection,
        (convert_hot_cues_to_memory_cues col).name = col.name
        ∧ (convert_hot_cues_to_memory_cues col).playlists = col.playlists
        ∧ (convert_hot_cues_to_memory_cues col).root_playlists = col.root_playlists
        ∧ (convert_hot_cues_to_memory_cues col).tracks.map
            (fun kv => (kv.1, trackSansCues kv.2))
          = col.tracks.map (fun kv => (kv.1, trackSansCues kv.2))
        ∧ (convert_hot_cues_to_memory_cues col).tracks.map
            (fun kv => kv.2.cue_points.map cueFrame)
          = col.tracks.map (fun kv => kv.2.cue_points.map cueFrame)) := by
  constructor
  · intro c
    exact ⟨rfl, rfl⟩
  · intro col
    refine ⟨rfl, rfl, rfl, ?_, ?_⟩
    · show (col.tracks.map (fun kv => (kv.1, convertTrackCues kv.2))).map
          (fun kv => (kv.1, trackSansCues kv.2))
        = col.tracks.map (fun kv => (kv.1, trackSansCues kv.2))
      rw [List.map_map]
      apply List.map_congr_left
      intro kv _
      rfl
    · show (col.tracks.map (fun kv => (kv.1, convertTrackCues kv.2))).map
          (fun kv => kv.2.cue_points.map cueFrame)
        = col.tracks.map (fun kv => kv.2.cue_points.map cueFrame)
      rw [List.map_map]
      apply List.map_congr_left
      intro kv _
      show (kv.2.cue_points.map convertCuePoint).map cueFrame
        = kv.2.cue_points.map cueFrame
      rw [List.map_map]
      apply List.map_congr_left
      intro c _
      show cueFrame (convertCuePoint c) = cueFrame c
      unfold convertCuePoint CuePoint.to_memory_cue cueFrame
      by_cases h : c.type = CueType.HOT_CUE <;> simp [h]

/-- Lookup in a value-mapped dictionary: mapping the values commutes with
`dictGet`. -/
theorem dictGet_map {α β : Type} (f : α → β) :
    ∀ (l : List (Nat × α)) (k : Nat),
      dictGet (l.map (fun kv => (kv.1, f kv.2))) k = (dictGet l k).map f := by
  intro l
  induction l with
  | nil => intro k; rfl
  | cons kv rest ih =>
      intro k
      by_cases h : kv.1 = k <;> simp [dictGet, h, ih]

/-- Serializing an already-converted cue without the option gives the same
POSITION_MARK as serializing the original cue with the option. -/
theorem positionMarkOfCue_convert (c : CuePoint) :
    positionMarkOfCue false (convertCuePoint c) = positionMarkOfCue true c := by
  by_cases h : c.type = CueType.HOT_CUE <;>
    simp [positionMarkOfCue, convertCuePoint, CuePoint.to_memory_cue, h]

/-- Serializing an already-converted track without the option gives the
same TRACK element as serializing the original with the option. -/
theorem trackElem_convert (now : String) (t : Track) :
    trackElem now false (convertTrackCues t) = trackElem now true t := by
  simp only [trackElem, convertTrackCues]
  rw [List.map_map]
  simp only [Function.comp_def]
  rw [List.map_congr_left (fun c _ => positionMarkOfCue_convert c)]

/-- The cue-type rewrite does not change which track ids resolve inside a
playlist, so the emitted track references agree. -/
theorem playlistTrackRefs_convert (col : Collection) (tids : List Nat) :
    playlistTrackRefs (convert_hot_cues_to_memory_cues col) tids
      = playlistTrackRefs col tids := by
  unfold playlistTrackRefs
  induction tids with
  | nil => rfl
  | cons tid rest ih =>
      simp only [List.filterMap_cons]
      have h : dictGet (convert_hot_cues_to_memory_cues col).tracks tid
          = (dictGet col.tracks tid).map convertTrackCues :=
        dictGet_map convertTrackCues col.tracks tid
      rw [h]
      cases dictGet col.tracks tid <;> simp_all

/-- The playlist tree serialization is unchanged by the cue-type
rewrite. -/
theorem addPlaylistToNode_convert (col : Collection) :
    ∀ (fuel : Nat) (p : Playlist),
      addPlaylistToNode fuel (convert_hot_cues_to_memory_cues col) p
        = addPlaylistToNode fuel col p := by
  intro fuel
  induction fuel with
  | zero => intro p; rfl
  | succ fuel ih =>
      intro p
      cases p with
      | mk i n d tids parent children =>
          cases children with
          | nil =>
              show XNode.el "NODE" _ (playlistTrackRefs _ tids)
                  = XNode.el "NODE" _ (playlistTrackRefs _ tids)
              rw [playlistTrackRefs_convert]
          | cons c cs =>
              show XNode.el "NODE" _ ((c :: cs).map _)
                  = XNode.el "NODE" _ ((c :: cs).map _)
              rw [List.map_congr_left (fun q _ => ih q)]

/-- Claim C5: applying the hot-cue conversion early (transformation
service, then export with the option off) or late (export with the option
on) produces the same document tree — and therefore the same serialized
bytes, the text being a function of the tree — for every collection and
every date stamp. -/
theorem claim_C5_convert_early_late_equivalent :
    ∀ (fuel : Nat) (col : Collection) (now : String),
      exportDoc fuel (convert_hot_cues_to_memory_cues col) false now
        = exportDoc fuel col true now := by
  intro fuel col now
  unfold exportDoc
  have htracks : (convert_hot_cues_to_memory_cues col).tracks
      = col.tracks.map (fun kv => (kv.1, convertTrackCues kv.2)) := rfl
  have hpls : (convert_hot_cues_to_memory_cues col).playlists = col.playlists := rfl
  have hroots : (convert_hot_cues_to_memory_cues col).root_playlists
      = col.root_playlists := rfl
  rw [htracks, hpls, hroots]
  simp only [List.length_map, List.map_map]
  rw [List.map_congr_left (fun kv _ => by
    show trackElem now false (convertTrackCues kv.2) = trackElem now true kv.2
    exact trackElem_convert now kv.2)]
  have hfm : List.filterMap (fun pid =>
        Option.map (addPlaylistToNode fuel (convert_hot_cues_to_memory_cues col))
          (dictGet col.playlists pid)) col.root_playlists
      = List.filterMap (fun pid =>
        Option.map (addPlaylistToNode fuel col) (dictGet col.playlists pid))
          col.root_playlists := by
    apply List.filterMap_congr
    intro pid _
    cases dictGet col.playlists pid with
    | none => rfl
    | some p => simp [addPlaylistToNode_convert col fuel p]
  rw [hfm]

/-- Claim C4, counterexample: the millisecond round trip is not exact for
every integer input under the code's binary64 arithmetic — importing a cue
at 1013 ms stores the double nearest 1.013 s, and `int(position * 1000)`
truncates the product (which falls one unit of least precision short of
1013) down to 1012. -/
theorem claim_C4_counterexample :
    cueRoundTrip 1013 = 1012 ∧ (1012 : ℤ) ≠ 1013 := by
  constructor
  · unfold cueRoundTrip exportCueStartMs importCuePosition
    have h1 : flDouble ((1013 : ℚ) / 1000)
        = (4562146422526312 : ℚ) * (2 : ℚ) ^ ((0 : ℤ) - 52) := by
      refine flDouble_eval (by norm_num) (by norm_num) (by norm_num) ?_
      exact roundHalfEven_eq_floor (by norm_num) (by push_cast; norm_num)
    rw [show ((1013 : ℕ) : ℚ) = (1013 : ℚ) by norm_num, h1]
    have h2 : flDouble ((4562146422526312 : ℚ) * (2 : ℚ) ^ ((0 : ℤ) - 52) * 1000)
        = (8910442231496703 : ℚ) * (2 : ℚ) ^ ((9 : ℤ) - 52) := by
      refine flDouble_eval (by norm_num) (by norm_num) (by norm_num) ?_
      exact roundHalfEven_eq_floor (by norm_num) (by push_cast; norm_num)
    rw [h2]
    unfold pyTrunc
    rw [if_pos (by norm_num)]
    norm_num
  · decide

/-- Claim C4, amended: the spec's example is exact — 12345 ms imports to
the double nearest 12.345 s and exports back to exactly 12345 ms — and
under exact rational arithmetic the conversion `n / 1000 * 1000` truncates
to `n` for every integer `n`; the loss witnessed at 1013 is entirely a
binary64 rounding artifact, so the round trip is not exact for every
integer millisecond input, only for those (like 12345) whose product
rounds back up to the integer. -/
theorem claim_C4_amended_round_trip :
    cueRoundTrip 12345 = 12345
    ∧ (∀ n : ℕ, pyTrunc ((n : ℚ) / 1000 * 1000) = n) := by
  constructor
  · unfold cueRoundTrip exportCueStartMs importCuePosition
    have h1 : flDouble ((12345 : ℚ) / 1000)
        = (6949617174986097 : ℚ) * (2 : ℚ) ^ ((3 : ℤ) - 52) := by
      refine flDouble_eval (by norm_num) (by norm_num) (by norm_num) ?_
      have h := roundHalfEven_eq_ceil (s := (12345 : ℚ) / 1000 * (2 : ℚ) ^ ((52 : ℤ) - 3))
        (f := 6949617174986096) (by norm_num) (by push_cast; norm_num)
      rw [h]
      norm_num
    rw [show ((12345 : ℕ) : ℚ) = (12345 : ℚ) by norm_num, h1]
    have h2 : flDouble ((6949617174986097 : ℚ) * (2 : ℚ) ^ ((3 : ℤ) - 52) * 1000)
        = (6786735522447360 : ℚ) * (2 : ℚ) ^ ((13 : ℤ) - 52) := by
      refine flDouble_eval (by norm_num) (by norm_num) (by norm_num) ?_
      exact roundHalfEven_eq_floor (by norm_num) (by push_cast; norm_num)
    rw [h2]
    unfold pyTrunc
    rw [if_pos (by norm_num)]
    norm_num
  · intro n
    have h : ((n : ℚ) / 1000) * 1000 = (n : ℚ) :=
      div_mul_cancel₀ _ (by norm_num)
    rw [h]
    unfold pyTrunc
    rw [if_pos (by positivity)]
    exact_mod_cast Int.floor_natCast n

/-- Number of TRACK references actually emitted for a leaf playlist: one
per track id present in the collection. -/
theorem length_playlistTrackRefs (col : Collection) (tids : List Nat) :
    (playlistTrackRefs col tids).length
      = tids.countP (fun tid => (dictGet col.tracks tid).isSome) := by
  unfold playlistTrackRefs
  induction tids with
  | nil => rfl
  | cons t rest ih =>
      simp only [List.filterMap_cons, List.countP_cons]
      cases h : dictGet col.tracks t <;> simp [h, ih]

/-- Claim C2, amended: exporting a leaf playlist never raises; the emitted
TRACK references silently skip every track id absent from the collection
(their number is the count of resolvable ids), while the declared
`Entries` attribute equals the full track-id list length — so the declared
count includes, rather than excludes, dangling references. -/
theorem claim_C2_amended_dangling_refs :
    ∀ (fuel : Nat) (col : Collection) (p : Playlist),
      p.children = [] →
      (addPlaylistToNode (fuel + 1) col p).attrs
          = [("Type", AVal.i 1), ("Name", AVal.s p.name), ("KeyType", AVal.i 0),
             ("Entries", AVal.i (p.track_ids.length : ℤ))]
      ∧ (addPlaylistToNode (fuel + 1) col p).children.length
          = p.track_ids.countP (fun tid => (dictGet col.tracks tid).isSome) := by
  intro fuel col p hp
  cases p with
  | mk i n d tids parent children =>
      cases children with
      | nil => exact ⟨rfl, length_playlistTrackRefs col tids⟩
      | cons c cs => simp [Playlist.children] at hp

/-- Witness for claim C2's theorem: a leaf playlist holding one resolvable
id (1) and one dangling id (2) declares two entries but emits a single
track reference. -/
theorem claim_C2_amended_dangling_refs_witness :
    (addPlaylistToNode 1
        { name := "W", tracks := [(1, mkTrack 1 "/music/w.mp3" [] [])],
          playlists := [], root_playlists := [] }
        (.mk 9 "L" "" [1, 2] none [])).attrs
      = [("Type", AVal.i 1), ("Name", AVal.s "L"), ("KeyType", AVal.i 0),
         ("Entries", AVal.i 2)]
    ∧ (addPlaylistToNode 1
        { name := "W", tracks := [(1, mkTrack 1 "/music/w.mp3" [] [])],
          playlists := [], root_playlists := [] }
        (.mk 9 "L" "" [1, 2] none [])).children.length = 1 := by
  have h := claim_C2_amended_dangling_refs 0
    { name := "W", tracks := [(1, mkTrack 1 "/music/w.mp3" [] [])],
      playlists := [], root_playlists := [] }
    (.mk 9 "L" "" [1, 2] none []) rfl
  exact ⟨h.1, h.2.trans (by rfl)⟩

/-- Claim C2, counterexample: a leaf playlist whose only entry is a
dangling track id is exported with declared entry count 1 — the count does
not exclude the dangling reference, even though zero TRACK children are
emitted. -/
theorem claim_C2_counterexample :
    addPlaylistToNode 1
        { name := "C", tracks := [], playlists := [], root_playlists := [] }
        (.mk 5 "X" "" [7] none [])
      = XNode.el "NODE"
          [("Type", AVal.i 1), ("Name", AVal.s "X"), ("KeyType", AVal.i 0),
           ("Entries", AVal.i 1)] []
    ∧ (1 : ℤ) ≠ 0 := by
  exact ⟨rfl, by decide⟩

/-- Claim C3, amended: every serialization or I/O exception in
`export_library` is caught and reported as a `False` result, never
re-raised; a failure before the destination is opened leaves it untouched,
but the code writes the destination path directly (no temporary file and
rename), so an I/O failure after `k` characters leaves a truncated partial
document at the destination — the write is not atomic. -/
theorem claim_C3_amended_export_not_atomic :
    ∀ (fuel : Nat) (col : Collection) (convert : Bool) (now : String)
      (prev : Option String),
      (export_library fuel col convert now prev IOFault.ok).1 = true
      ∧ (export_library fuel col convert now prev IOFault.atSerialize).1 = false
      ∧ (export_library fuel col convert now prev IOFault.atSerialize).2 = prev
      ∧ (∀ k, (export_library fuel col convert now prev (IOFault.atWrite k)).1 = false)
      ∧ (∀ k, (export_library fuel col convert now prev (IOFault.atWrite k)).2
          = some ((serializeX fuel (exportDoc fuel col convert now)).take k)) := by
  intro fuel col convert now prev
  exact ⟨rfl, rfl, rfl, fun _ => rfl, fun _ => rfl⟩

set_option maxRecDepth 8000 in
/-- Claim C3, counterexample: exporting the empty collection with an I/O
fault after one character reports failure (the exception is caught) but
leaves a one-character partial file at the destination, which is neither
the absent prior state nor the complete document. -/
theorem claim_C3_counterexample :
    (export_library 3 emptyTraktorCollection false "2025-01-01" none
        (IOFault.atWrite 1)).1 = false
    ∧ (export_library 3 emptyTraktorCollection false "2025-01-01" none
        (IOFault.atWrite 1)).2 = some "<"
    ∧ some "<" ≠ (none : Option String)
    ∧ ("<" : String)
        ≠ serializeX 3 (exportDoc 3 emptyTraktorCollection false "2025-01-01") := by
  refine ⟨rfl, by decide, by simp, by decide⟩

/-- Membership in an updated dictionary: every entry is the new pair or an
old entry. -/
theorem mem_dictSet {κ α : Type} [DecidableEq κ] (k : κ) (v : α) :
    ∀ (l : List (κ × α)) (kv : κ × α),
      kv ∈ dictSet l k v → kv = (k, v) ∨ kv ∈ l := by
  intro l
  induction l with
  | nil =>
      intro kv h
      simp [dictSet] at h
      exact Or.inl h
  | cons hd rest ih =>
      intro kv h
      by_cases hk : hd.1 = k
      · rw [show dictSet (hd :: rest) k v = (k, v) :: rest by
            simp [dictSet, hk]] at h
        rcases List.mem_cons.mp h with h | h
        · exact Or.inl h
        · exact Or.inr (List.mem_cons_of_mem _ h)
      · rw [show dictSet (hd :: rest) k v = hd :: dictSet rest k v by
            simp [dictSet, hk]] at h
        rcases List.mem_cons.mp h with h | h
        · exact Or.inr (h ▸ List.mem_cons_self _ _)
        · rcases ih kv h with h' | h'
          · exact Or.inl h'
          · exact Or.inr (List.mem_cons_of_mem _ h')

/-- A successful dictionary lookup is a membership. -/
theorem dictGet_mem {κ α : Type} [DecidableEq κ] :
    ∀ (l : List (κ × α)) (k : κ) (v : α), dictGet l k = some v → (k, v) ∈ l := by
  intro l
  induction l with
  | nil => intro k v h; simp [dictGet] at h
  | cons hd rest ih =>
      intro k v h
      by_cases hk : hd.1 = k
      · rw [show dictGet (hd :: rest) k = some hd.2 by simp [dictGet, hk]] at h
        rw [show hd = (k, v) by
          cases hd; cases h; cases hk; rfl]
        exact List.mem_cons_self _ _
      · rw [show dictGet (hd :: rest) k = dictGet rest k by
            simp [dictGet, hk]] at h
        exact List.mem_cons_of_mem _ (ih k v h)

/-- Folding preserves any invariant each step preserves. -/
theorem foldl_preserves {σ α : Type} (Q : σ → Prop) (f : σ → α → σ)
    (hf : ∀ s a, Q s → Q (f s a)) :
    ∀ (l : List α) (s : σ), Q s → Q (l.foldl f s) := by
  intro l
  induction l with
  | nil => intro s h; exact h
  | cons a rest ih => intro s h; exact ih (f s a) (hf s a h)

/-- A playlist property that survives `add_track` and holds for the
freshly constructed playlists survives `processEntry`. -/
theorem processEntry_preserves (P : Playlist → Prop)
    (hAdd : ∀ p tid, P p → P (p.add_track tid)) :
    ∀ (col : Collection) (pid : Nat) (e : Xml),
      (∀ kv ∈ col.playlists, P kv.2) →
      ∀ kv ∈ (processEntry col pid e).playlists, P kv.2 := by
  intro col pid e hcol
  have hupd : ∀ (c : Collection) (f : Playlist → Playlist),
      (∀ q, P q → P (f q)) → (∀ kv ∈ c.playlists, P kv.2) →
      ∀ kv ∈ (updatePlaylist c pid f).playlists, P kv.2 := by
    intro c f hfP hc kv hkv
    unfold updatePlaylist at hkv
    cases hq : dictGet c.playlists pid with
    | none => rw [hq] at hkv; exact hc kv hkv
    | some q =>
        rw [hq] at hkv
        simp only at hkv
        rcases mem_dictSet pid (f q) c.playlists kv hkv with h | h
        · rw [h]
          exact hfP q (hc (pid, q) (dictGet_mem c.playlists pid q hq))
        · exact hc kv h
  unfold processEntry
  cases e.findChild "PRIMARYKEY" with
  | none => exact hcol
  | some loc =>
      simp only
      by_cases h1 : loc.get "KEY" "" = ""
      · simp only [h1, if_pos rfl]; exact hcol
      · rw [if_neg h1]
        by_cases h2 : (pySplit (loc.get "KEY" "") "/:").length < 2
        · rw [if_pos h2]; exact hcol
        · rw [if_neg h2]
          cases resolveTrackRef col.tracks (loc.get "KEY" "")
              ((pySplit (loc.get "KEY" "") "/:").getLastD "") with
          | none => exact hcol
          | some tid =>
              exact hupd col (fun p => p.add_track tid)
                (fun q hq => hAdd q tid hq) hcol

/-- A playlist property that survives `add_track` and holds for freshly
constructed playlists is an invariant of the playlist-tree walker. -/
theorem processPlaylistNode_preserves (P : Playlist → Prop)
    (hAdd : ∀ p tid, P p → P (p.add_track tid))
    (hNew : ∀ (g : Nat) (n : String) (parent : Option Nat),
      P (Playlist.mk g n "" [] parent [])) :
    ∀ (fuel : Nat) (node : Xml) (parent : Option Nat) (st : Collection × Nat),
      (∀ kv ∈ st.1.playlists, P kv.2) →
      ∀ kv ∈ (processPlaylistNode fuel node parent st).1.playlists, P kv.2 := by
  intro fuel
  induction fuel with
  | zero => intro node parent st h; exact h
  | succ fuel ih =>
      intro node parent st hst
      obtain ⟨col, g⟩ := st
      have hadded : ∀ kv ∈ (col.add_playlist (Playlist.mk g (node.get "NAME" "") ""
          [] parent [])).playlists, P kv.2 := by
        intro kv hkv
        unfold Collection.add_playlist at hkv
        simp only at hkv
        rcases mem_dictSet _ _ col.playlists kv hkv with h | h
        · rw [h]; exact hNew g (node.get "NAME" "") parent
        · exact hst kv h
      unfold processPlaylistNode
      by_cases h1 : node.get "TYPE" "" = "FOLDER"
      · rw [if_pos h1]
        refine foldl_preserves
          (fun st => ∀ kv ∈ (st : Collection × Nat).1.playlists, P kv.2) _
          (fun s c hs => ih c (some g) s hs) _ _ ?_
        exact hadded
      · rw [if_neg h1]
        by_cases h2 : node.get "TYPE" "" = "PLAYLIST"
        · rw [if_pos h2]
          cases node.findChild "PLAYLIST" with
          | none => exact hadded
          | some pe =>
              simp only
              refine foldl_preserves
                (fun c => ∀ kv ∈ (c : Collection).playlists, P kv.2) _
                (fun c e hc => processEntry_preserves P hAdd c g e hc) _ _ ?_
              exact hadded
        · rw [if_neg h2]; exact hst

/-- Every playlist the importer stores has an empty `children` list:
`_process_playlist_node` constructs each `Playlist` with the default empty
children and never calls `add_child` — parent linkage exists only through
`parent_id`. -/
theorem importer_playlists_children_empty :
    ∀ (fuel : Nat) (node : Xml) (parent : Option Nat) (st : Collection × Nat),
      (∀ kv ∈ st.1.playlists, (Prod.snd kv).children = []) →
      ∀ kv ∈ (processPlaylistNode fuel node parent st).1.playlists,
        (Prod.snd kv).children = [] := by
  refine processPlaylistNode_preserves (fun p => p.children = []) ?_ ?_
  · intro p tid hp
    cases p with
    | mk i n d ts pr ch =>
        unfold Playlist.add_track
        by_cases h : tid ∈ ts <;> simp [h] <;> exact hp
  · intro g n parent
    rfl

/-- Synthetic vendor-A playlist section: one FOLDER node "F" carrying one
PLAYLIST node "P" inside SUBNODES. -/
def nmlPlaylistsDoc : Xml :=
  .el "NML" [("VERSION", "19")]
    [.el "PLAYLISTS" []
      [.el "NODE" [("TYPE", "FOLDER"), ("NAME", "F")]
        [.el "SUBNODES" [("COUNT", "1")]
          [.el "NODE" [("TYPE", "PLAYLIST"), ("NAME", "P")]
            [.el "PLAYLIST" [("ENTRIES", "0")] []]]]]]

/-- Claim C1, code bug: importing a document whose FOLDER node "F" owns
one PLAYLIST child "P" produces a playlist for "F" whose `children` list
is empty (the importer records the tree only through `parent_id` and never
populates `children`, which the exporter walks), so a FOLDER node does not
become a Playlist with one or more children and the exported tree shape
cannot match the source. -/
theorem claim_C1_folder_children_empty :
    (importPlaylists 10 nmlPlaylistsDoc (emptyTraktorCollection, 0)).1.playlists
        = [(0, Playlist.mk 0 "F" "" [] none []),
           (1, Playlist.mk 1 "P" "" [] (some 0) [])]
    ∧ (importPlaylists 10 nmlPlaylistsDoc
        (emptyTraktorCollection, 0)).1.root_playlists = [0] := by
  exact ⟨rfl, rfl⟩

/-- ENTRY element carrying a PRIMARYKEY KEY attribute — the shape the
playlist entry loop reads (traktor_importer.py lines 250-254). -/
def entryWithKey (key : String) : Xml :=
  .el "ENTRY" [] [.el "PRIMARYKEY" [("TYPE", "TRACK"), ("KEY", key)] []]

/-- Claim C8: playlist references resolve in a fixed preference order.
Part 1: an exact `traktor_path` custom-tag match wins, taking the first
tag-matching track in iteration order regardless of any filename-suffix
matches before it.  Part 2: with no tag match anywhere, the first track
whose OS-native path ends with the filename component is taken.  Part 3:
matching neither way resolves to nothing.  Part 4: an unresolvable entry
leaves the playlist (and the whole collection) unchanged — dropped, not an
error. -/
theorem claim_C8_resolution_order :
    (∀ (pre post : List (Nat × Track)) (tid : Nat) (t : Track) (key fname : String),
        dictGet t.custom_tags "traktor_path" = some key →
        (∀ kv ∈ pre, ¬ dictGet (Prod.snd kv).custom_tags "traktor_path" = some key) →
        resolveTrackRef (pre ++ (tid, t) :: post) key fname = some t.id)
    ∧ (∀ (pre post : List (Nat × Track)) (tid : Nat) (t : Track) (key fname : String),
        (∀ kv ∈ pre ++ (tid, t) :: post,
            ¬ dictGet (Prod.snd kv).custom_tags "traktor_path" = some key) →
        pyEndsWith t.file_path fname = true →
        (∀ kv ∈ pre, pyEndsWith (Prod.snd kv).file_path fname = false) →
        resolveTrackRef (pre ++ (tid, t) :: post) key fname = some t.id)
    ∧ (∀ (tracks : List (Nat × Track)) (key fname : String),
        (∀ kv ∈ tracks, ¬ dictGet (Prod.snd kv).custom_tags "traktor_path" = some key) →
        (∀ kv ∈ tracks, pyEndsWith (Prod.snd kv).file_path fname = false) →
        resolveTrackRef tracks key fname = none)
    ∧ (∀ (col : Collection) (pid : Nat) (key : String),
        resolveTrackRef col.tracks key ((pySplit key "/:").getLastD "") = none →
        processEntry col pid (entryWithKey key) = col) := by
  have hfindTag : ∀ (pre : List (Nat × Track)) (key : String),
      (∀ kv ∈ pre, ¬ dictGet (Prod.snd kv).custom_tags "traktor_path" = some key) →
      pre.find? (fun kv => dictGet kv.2.custom_tags "traktor_path" = some key)
        = none := by
    intro pre key h
    rw [List.find?_eq_none]
    intro kv hkv
    simpa using h kv hkv
  refine ⟨?_, ?_, ?_, ?_⟩
  · intro pre post tid t key fname ht hpre
    unfold resolveTrackRef
    rw [List.find?_append, hfindTag pre key hpre]
    rw [List.find?_cons_of_pos _ (by simpa using ht)]
    rfl
  · intro pre post tid t key fname hnone ht hpre
    unfold resolveTrackRef
    rw [show (pre ++ (tid, t) :: post).find?
          (fun kv => dictGet kv.2.custom_tags "traktor_path" = some key) = none by
        rw [List.find?_eq_none]
        intro kv hkv
        simpa using hnone kv hkv]
    rw [List.find?_append]
    rw [show pre.find? (fun kv => pyEndsWith kv.2.file_path fname) = none by
      rw [List.find?_eq_none]
      intro kv hkv
      simp [hpre kv hkv]]
    rw [List.find?_cons_of_pos _ (by simpa using ht)]
    rfl
  · intro tracks key fname h1 h2
    unfold resolveTrackRef
    rw [hfindTag tracks key h1]
    rw [show tracks.find? (fun kv => pyEndsWith kv.2.file_path fname) = none by
      rw [List.find?_eq_none]
      intro kv hkv
      simp [h2 kv hkv]]
  · intro col pid key hres
    unfold processEntry
    have hfind : (entryWithKey key).findChild "PRIMARYKEY"
        = some (.el "PRIMARYKEY" [("TYPE", "TRACK"), ("KEY", key)] []) := rfl
    rw [hfind]
    have hget : (Xml.el "PRIMARYKEY" [("TYPE", "TRACK"), ("KEY", key)] []).get "KEY" ""
        = key := rfl
    simp only [hget]
    by_cases h1 : key = ""
    · rw [if_pos h1]
    · rw [if_neg h1]
      by_cases h2 : (pySplit key "/:").length < 2
      · rw [if_pos h2]
      · rw [if_neg h2]
        rw [hres]

/-- Witness for claim C8's theorem: with a first track whose path ends in
the filename component but carries no tag and a second track carrying the
exact `traktor_path` tag, the reference resolves to the second track; the
resolver returns nothing when neither method matches, and such an entry
leaves the collection unchanged. -/
theorem claim_C8_resolution_order_witness :
    resolveTrackRef
        [(1, mkTrack 1 "/m/f.mp3" [] []),
         (2, mkTrack 2 "/other/g.mp3" [("traktor_path", "V/:m/:f.mp3")] [])]
        "V/:m/:f.mp3" "f.mp3" = some 2
    ∧ resolveTrackRef [(1, mkTrack 1 "/m/f.mp3" [] [])] "V/:x/:y.mp3" "y.mp3" = none
    ∧ processEntry
        { name := "W", tracks := [(1, mkTrack 1 "/m/f.mp3" [] [])],
          playlists := [(5, .mk 5 "P" "" [] none [])], root_playlists := [5] }
        5 (entryWithKey "V/:x/:y.mp3")
      = { name := "W", tracks := [(1, mkTrack 1 "/m/f.mp3" [] [])],
          playlists := [(5, .mk 5 "P" "" [] none [])], root_playlists := [5] } := by
  refine ⟨?_, ?_, ?_⟩
  · exact claim_C8_resolution_order.1 [(1, mkTrack 1 "/m/f.mp3" [] [])] []
      2 (mkTrack 2 "/other/g.mp3" [("traktor_path", "V/:m/:f.mp3")] [])
      "V/:m/:f.mp3" "f.mp3" rfl
      (by
        intro kv hkv
        rw [List.mem_singleton] at hkv
        subst hkv
        simp [mkTrack, dictGet])
  · exact claim_C8_resolution_order.2.2.1 [(1, mkTrack 1 "/m/f.mp3" [] [])]
      "V/:x/:y.mp3" "y.mp3"
      (by
        intro kv hkv
        rw [List.mem_singleton] at hkv
        subst hkv
        simp [mkTrack, dictGet])
      (by
        intro kv hkv
        rw [List.mem_singleton] at hkv
        subst hkv
        decide)
  · exact claim_C8_resolution_order.2.2.2 _ 5 "V/:x/:y.mp3" (by decide)

/-- Re-adding an id already present is a no-op on the playlist. -/
theorem add_track_mem_noop (p : Playlist) (tid : Nat)
    (h : tid ∈ p.track_ids) : p.add_track tid = p := by
  cases p with
  | mk i n d ts pr ch =>
      have h' : tid ∈ ts := h
      show (if tid ∈ ts then Playlist.mk i n d ts pr ch
          else Playlist.mk i n d (ts ++ [tid]) pr ch) = Playlist.mk i n d ts pr ch
      rw [if_pos h']

/-- `add_track` keeps the track-id list duplicate-free. -/
theorem add_track_nodup (p : Playlist) (tid : Nat)
    (h : p.track_ids.Nodup) : (p.add_track tid).track_ids.Nodup := by
  cases p with
  | mk i n d ts pr ch =>
      have h' : ts.Nodup := h
      show (if tid ∈ ts then Playlist.mk i n d ts pr ch
          else Playlist.mk i n d (ts ++ [tid]) pr ch).track_ids.Nodup
      by_cases hm : tid ∈ ts
      · rw [if_pos hm]; exact h'
      · rw [if_neg hm]
        show (ts ++ [tid]).Nodup
        refine h'.append (List.nodup_singleton tid) ?_
        intro a ha hb
        rw [List.mem_singleton] at hb
        exact hm (hb ▸ ha)

/-- Claim C9, amended: `add_track` suppresses duplicates (re-adding is a
no-op and duplicate-freedom is preserved), and every playlist produced by
the importer's playlist walker has a duplicate-free track-id list; the
merge operation, however, does not go through `add_track` (see the
counterexample). -/
theorem claim_C9_amended_no_duplicates :
    (∀ (p : Playlist) (tid : Nat), tid ∈ p.track_ids → p.add_track tid = p)
    ∧ (∀ (p : Playlist) (tid : Nat),
        p.track_ids.Nodup → (p.add_track tid).track_ids.Nodup)
    ∧ (∀ (fuel : Nat) (node : Xml) (parent : Option Nat) (st : Collection × Nat),
        (∀ kv ∈ st.1.playlists, (Prod.snd kv).track_ids.Nodup) →
        ∀ kv ∈ (processPlaylistNode fuel node parent st).1.playlists,
          (Prod.snd kv).track_ids.Nodup) := by
  refine ⟨add_track_mem_noop, add_track_nodup, ?_⟩
  exact processPlaylistNode_preserves (fun p => p.track_ids.Nodup)
    add_track_nodup (fun g n parent => List.nodup_nil)

/-- Witness for claim C9's theorem: a concrete no-op re-add, a concrete
duplicate-free extension, and the playlist produced by importing one
PLAYLIST node. -/
theorem claim_C9_amended_no_duplicates_witness :
    (Playlist.mk 1 "w" "" [5] none []).add_track 5
        = Playlist.mk 1 "w" "" [5] none []
    ∧ ((Playlist.mk 1 "w" "" [5] none []).add_track 6).track_ids.Nodup
    ∧ (Playlist.mk 0 "P" "" [] none []).track_ids.Nodup := by
  refine ⟨?_, ?_, ?_⟩
  · exact claim_C9_amended_no_duplicates.1 _ 5 (by decide)
  · exact claim_C9_amended_no_duplicates.2.1 _ 6 (by decide)
  · exact claim_C9_amended_no_duplicates.2.2 1
      (.el "NODE" [("TYPE", "PLAYLIST"), ("NAME", "P")] []) none
      (emptyTraktorCollection, 0)
      (fun kv hkv => absurd hkv (List.not_mem_nil kv))
      (0, Playlist.mk 0 "P" "" [] none []) (List.mem_cons_self _ _)

/-- Source collection holding two distinct tracks with one and the same
file path, both referenced by one playlist. -/
def srcDup : Collection :=
  { name := "S",
    tracks := [(1, mkTrack 1 "/a.mp3" [] []), (2, mkTrack 2 "/a.mp3" [] [])],
    playlists := [(3, .mk 3 "PL" "" [1, 2] none [])],
    root_playlists := [3] }

/-- Claim C9, counterexample: merging `srcDup` into an empty target copies
the first track (fresh id 10), maps the second source id onto the same
copy by file path, and builds the copied playlist's list by direct
translation — producing the duplicated list [10, 10], so not every
playlist produced by the system has a duplicate-free track-id list. -/
theorem claim_C9_counterexample :
    (dictGet (merge_collections srcDup
        { name := "T", tracks := [], playlists := [], root_playlists := [] }
        10 "d").playlists 11).map Playlist.track_ids = some [10, 10]
    ∧ ¬ ([10, 10] : List Nat).Nodup := by
  exact ⟨rfl, by decide⟩

/-- Unfolding equation for `dictGet` on a cons cell. -/
theorem dictGet_cons {κ α : Type} [DecidableEq κ] (hd : κ × α)
    (rest : List (κ × α)) (k : κ) :
    dictGet (hd :: rest) k = if hd.1 = k then some hd.2 else dictGet rest k := by
  cases hd
  rfl

/-- A key outside the stored keys looks up to nothing. -/
theorem dictGet_none_of_not_mem_keys {κ α : Type} [DecidableEq κ] :
    ∀ (l : List (κ × α)) (k : κ), k ∉ l.map Prod.fst → dictGet l k = none := by
  intro l
  induction l with
  | nil => intro k _; rfl
  | cons hd rest ih =>
      intro k hk
      simp only [List.map_cons, List.mem_cons] at hk
      push_neg at hk
      rw [dictGet_cons]
      rw [if_neg (fun he => hk.1 he.symm)]
      exact ih k hk.2

/-- Setting a fresh key appends the binding at the end — Python dict
insertion order. -/
theorem dictSet_append_of_fresh {κ α : Type} [DecidableEq κ] :
    ∀ (l : List (κ × α)) (k : κ) (v : α),
      dictGet l k = none → dictSet l k v = l ++ [(k, v)] := by
  intro l
  induction l with
  | nil => intro k v _; rfl
  | cons hd rest ih =>
      intro k v h
      rw [dictGet_cons] at h
      by_cases he : hd.1 = k
      · rw [if_pos he] at h; cases h
      · rw [if_neg he] at h
        show (if hd.1 = k then (k, v) :: rest else hd :: dictSet rest k v)
            = (hd :: rest) ++ [(k, v)]
        rw [if_neg he, ih k v h]
        rfl

/-- Lookup skips a first block in which the key is absent. -/
theorem dictGet_append_of_none {κ α : Type} [DecidableEq κ] :
    ∀ (l₁ l₂ : List (κ × α)) (k : κ),
      dictGet l₁ k = none → dictGet (l₁ ++ l₂) k = dictGet l₂ k := by
  intro l₁
  induction l₁ with
  | nil => intro l₂ k _; rfl
  | cons hd rest ih =>
      intro l₂ k h
      rw [dictGet_cons] at h
      by_cases he : hd.1 = k
      · rw [if_pos he] at h; cases h
      · rw [if_neg he] at h
        rw [List.cons_append, dictGet_cons, if_neg he]
        exact ih l₂ k h

/-- Id of the first target track matching a file path — the id the
deduplication reuses (0 only in the impossible no-match case). -/
def firstMatchId (tgt : Collection) (path : String) : Nat :=
  match findExistingByPath tgt.tracks path with
  | some t => t.id
  | none => 0

/-- Per-playlist shape of the copies `merge_collections` creates: fresh
consecutive ids, the source name and description, the track-id list
translated through the remapping table, no parent and no children. -/
def translatedPlaylists (mapping : List (Nat × Nat)) :
    List (Nat × Playlist) → Nat → List (Nat × Playlist)
  | [], _ => []
  | (_, pl) :: rest, g =>
      (g, .mk g pl.name pl.description
        (pl.track_ids.filterMap (fun tid => dictGet mapping tid)) none [])
      :: translatedPlaylists mapping rest (g + 1)

/-- Unfolding equation for the track loop of the merge. -/
theorem mergeTracksAux_cons (now : String) (sid : Nat) (st : Track)
    (rest : List (Nat × Track)) (tgt : Collection)
    (mapping : List (Nat × Nat)) (g : Nat) :
    mergeTracksAux now ((sid, st) :: rest) tgt mapping g
      = match findExistingByPath tgt.tracks st.file_path with
        | some existing =>
            mergeTracksAux now rest tgt (dictSet mapping sid existing.id) g
        | none =>
            mergeTracksAux now rest (tgt.add_track (copyTrack g now st))
              (dictSet mapping sid g) (g + 1) := rfl

/-- When every source track's path already occurs in the target, the track
loop leaves the target untouched and maps each source id to the id of the
first path-matching target track. -/
theorem mergeTracksAux_all_matched (now : String) :
    ∀ (l : List (Nat × Track)) (tgt : Collection)
      (acc : List (Nat × Nat)) (g : Nat),
      (∀ kv ∈ l,
        (findExistingByPath tgt.tracks (Prod.snd kv).file_path).isSome = true) →
      (l.map Prod.fst).Nodup →
      (∀ sid ∈ l.map Prod.fst, dictGet acc sid = none) →
      mergeTracksAux now l tgt acc g
        = (tgt,
           acc ++ l.map (fun kv =>
             (kv.1, firstMatchId tgt (Prod.snd kv).file_path)),
           g) := by
  intro l
  induction l with
  | nil => intro tgt acc g _ _ _; simp [mergeTracksAux]
  | cons kv rest ih =>
      intro tgt acc g hall hnd hacc
      obtain ⟨sid, st⟩ := kv
      have hm := hall (sid, st) (List.mem_cons_self _ _)
      obtain ⟨ex, hex⟩ := Option.isSome_iff_exists.mp hm
      rw [mergeTracksAux_cons, hex]
      show mergeTracksAux now rest tgt (dictSet acc sid ex.id) g = _
      have hnd' : (rest.map Prod.fst).Nodup :=
        (List.nodup_cons.mp (by simpa using hnd)).2
      have hsid_not : sid ∉ rest.map Prod.fst :=
        (List.nodup_cons.mp (by simpa using hnd)).1
      have hfresh : dictGet acc sid = none := hacc sid (by simp)
      rw [dictSet_append_of_fresh acc sid ex.id hfresh]
      rw [ih tgt (acc ++ [(sid, ex.id)]) g
        (fun kv hkv => hall kv (List.mem_cons_of_mem _ hkv))
        hnd'
        (fun sid' hs' => by
          rw [dictGet_append_of_none acc [(sid, ex.id)] sid'
            (hacc sid' (by simp [hs']))]
          rw [dictGet_cons]
          have hne : (sid, ex.id).1 ≠ sid' := by
            intro he
            apply hsid_not
            rw [show sid = sid' from he]
            exact hs'
          rw [if_neg hne]
          rfl)]
      simp [List.append_assoc, firstMatchId, hex]

/-- Unfolding equation for the playlist loop of the merge. -/
theorem mergePlaylistsAux_cons (pid : Nat) (pl : Playlist)
    (rest : List (Nat × Playlist)) (tgt : Collection)
    (mapping : List (Nat × Nat)) (g : Nat) :
    mergePlaylistsAux ((pid, pl) :: rest) tgt mapping g
      = mergePlaylistsAux rest
          (tgt.add_playlist (.mk g pl.name pl.description
            (pl.track_ids.filterMap (fun tid => dictGet mapping tid)) none []))
          mapping (g + 1) := rfl

/-- The playlist loop leaves the target's tracks alone and appends one
translated copy per source playlist, in order, under fresh ids. -/
theorem mergePlaylistsAux_spec :
    ∀ (pls : List (Nat × Playlist)) (tgt : Collection)
      (mapping : List (Nat × Nat)) (g : Nat),
      (∀ k ∈ tgt.playlists.map Prod.fst, k < g) →
      (mergePlaylistsAux pls tgt mapping g).1.tracks = tgt.tracks
      ∧ (mergePlaylistsAux pls tgt mapping g).1.playlists
          = tgt.playlists ++ translatedPlaylists mapping pls g := by
  intro pls
  induction pls with
  | nil =>
      intro tgt mapping g _
      exact ⟨rfl, by simp [mergePlaylistsAux, translatedPlaylists]⟩
  | cons kv rest ih =>
      intro tgt mapping g hlt
      obtain ⟨pid, pl⟩ := kv
      rw [mergePlaylistsAux_cons]
      have hfresh : dictGet tgt.playlists g = none :=
        dictGet_none_of_not_mem_keys _ g
          (fun hmem => absurd (hlt g hmem) (lt_irrefl g))
      have hpls' : (tgt.add_playlist (.mk g pl.name pl.description
          (pl.track_ids.filterMap (fun tid => dictGet mapping tid))
          none [])).playlists
          = tgt.playlists ++ [(g, .mk g pl.name pl.description
            (pl.track_ids.filterMap (fun tid => dictGet mapping tid)) none [])] :=
        dictSet_append_of_fresh _ g _ hfresh
      have hlt' : ∀ k ∈ (tgt.add_playlist (.mk g pl.name pl.description
          (pl.track_ids.filterMap (fun tid => dictGet mapping tid))
          none [])).playlists.map Prod.fst, k < g + 1 := by
        intro k hk
        rw [hpls'] at hk
        simp only [List.map_append, List.mem_append] at hk
        rcases hk with hk | hk
        · exact Nat.lt_succ_of_lt (hlt k hk)
        · simp at hk
          omega
      obtain ⟨ht, hp⟩ := ih _ mapping (g + 1) hlt'
      refine ⟨ht, ?_⟩
      rw [hp, hpls']
      simp [translatedPlaylists, List.append_assoc]


/-- Lookup of the key just set. -/
theorem dictGet_dictSet_self {κ α : Type} [DecidableEq κ] :
    ∀ (l : List (κ × α)) (k : κ) (v : α), dictGet (dictSet l k v) k = some v := by
  intro l
  induction l with
  | nil => intro k v; simp [dictSet, dictGet]
  | cons hd rest ih =>
      intro k v
      by_cases he : hd.1 = k
      · rw [show dictSet (hd :: rest) k v = (k, v) :: rest from by
          rw [show dictSet (hd :: rest) k v
              = if hd.1 = k then (k, v) :: rest else hd :: dictSet rest k v from by
            cases hd; rfl]
          rw [if_pos he]]
        rw [dictGet_cons, if_pos rfl]
      · rw [show dictSet (hd :: rest) k v = hd :: dictSet rest k v from by
          rw [show dictSet (hd :: rest) k v
              = if hd.1 = k then (k, v) :: rest else hd :: dictSet rest k v from by
            cases hd; rfl]
          rw [if_neg he]]
        rw [dictGet_cons, if_neg he]
        exact ih k v

/-- Setting one key does not disturb the lookup of another. -/
theorem dictGet_dictSet_ne {κ α : Type} [DecidableEq κ] :
    ∀ (l : List (κ × α)) (k k' : κ) (v : α), k ≠ k' →
      dictGet (dictSet l k v) k' = dictGet l k' := by
  intro l
  induction l with
  | nil => intro k k' v hne; simp [dictSet, dictGet, hne]
  | cons hd rest ih =>
      intro k k' v hne
      rw [show dictSet (hd :: rest) k v
          = if hd.1 = k then (k, v) :: rest else hd :: dictSet rest k v from by
        cases hd; rfl]
      by_cases he : hd.1 = k
      · rw [if_pos he, dictGet_cons, dictGet_cons]
        simp only
        rw [if_neg hne, if_neg (he ▸ hne)]
      · rw [if_neg he, dictGet_cons, dictGet_cons]
        by_cases he' : hd.1 = k'
        · rw [if_pos he', if_pos he']
        · rw [if_neg he', if_neg he']
          exact ih k k' v hne

/-- The first path match survives appending tracks at the end of the
target's dict — which is the only way the merge's track loop grows it. -/
theorem findExistingByPath_append (l ext : List (Nat × Track)) (path : String)
    (ex : Track) (h : findExistingByPath l path = some ex) :
    findExistingByPath (l ++ ext) path = some ex := by
  unfold findExistingByPath at h
  unfold findExistingByPath
  rw [List.map_append, List.find?_append, h]
  rfl

/-- The track loop never touches mapping entries for ids outside the
remaining source list. -/
theorem mergeTracksAux_mapping_frame (now : String) :
    ∀ (l : List (Nat × Track)) (tgt : Collection) (acc : List (Nat × Nat))
      (g : Nat) (k : Nat),
      (∀ s ∈ l.map Prod.fst, s ≠ k) →
      dictGet (mergeTracksAux now l tgt acc g).2.1 k = dictGet acc k := by
  intro l
  induction l with
  | nil => intro tgt acc g k _; rfl
  | cons kv rest ih =>
      intro tgt acc g k hk
      obtain ⟨sid, st⟩ := kv
      have hsid : sid ≠ k := hk sid (by simp)
      have hrest : ∀ s ∈ rest.map Prod.fst, s ≠ k :=
        fun s hs => hk s (by simp [hs])
      rw [mergeTracksAux_cons]
      cases findExistingByPath tgt.tracks st.file_path with
      | some ex =>
          rw [ih tgt (dictSet acc sid ex.id) g k hrest]
          exact dictGet_dictSet_ne acc sid k ex.id hsid
      | none =>
          rw [ih _ (dictSet acc sid g) (g + 1) k hrest]
          exact dictGet_dictSet_ne acc sid k g hsid

/-- For a source track whose file path matches a track of the target as it
stands when the loop starts (the merge's target grows only by appending,
so the first match never changes), the produced mapping sends the source
id to that first matching track's id. -/
theorem mergeTracksAux_mapping_of_match (now : String) :
    ∀ (l : List (Nat × Track)) (tgt : Collection) (acc : List (Nat × Nat))
      (g : Nat) (sid : Nat) (st : Track) (ex : Track),
      (sid, st) ∈ l →
      (l.map Prod.fst).Nodup →
      dictGet acc sid = none →
      (∀ k ∈ tgt.tracks.map Prod.fst, k < g) →
      findExistingByPath tgt.tracks st.file_path = some ex →
      dictGet (mergeTracksAux now l tgt acc g).2.1 sid = some ex.id := by
  intro l
  induction l with
  | nil => intro tgt acc g sid st ex hmem _ _ _ _; cases hmem
  | cons kv rest ih =>
      intro tgt acc g sid st ex hmem hnd hacc hkeys hex
      obtain ⟨sid0, st0⟩ := kv
      have hnd0 : sid0 ∉ rest.map Prod.fst :=
        (List.nodup_cons.mp (by simpa using hnd)).1
      have hnd' : (rest.map Prod.fst).Nodup :=
        (List.nodup_cons.mp (by simpa using hnd)).2
      rcases List.mem_cons.mp hmem with hhead | htail
      · obtain ⟨h1, h2⟩ := Prod.mk.injEq .. ▸ hhead
        subst h1
        subst h2
        rw [mergeTracksAux_cons, hex]
        rw [mergeTracksAux_mapping_frame now rest tgt _ g sid
          (fun s hs => fun he => hnd0 (he ▸ hs))]
        exact dictGet_dictSet_self acc sid ex.id
      · have hsid_ne : sid0 ≠ sid := by
          intro he
          apply hnd0
          rw [he]
          exact List.mem_map_of_mem Prod.fst htail
        rw [mergeTracksAux_cons]
        cases hex0 : findExistingByPath tgt.tracks st0.file_path with
        | some ex0 =>
            exact ih tgt (dictSet acc sid0 ex0.id) g sid st ex htail hnd'
              (by rw [dictGet_dictSet_ne acc sid0 sid ex0.id hsid_ne]; exact hacc)
              hkeys hex
        | none =>
            have htr : (tgt.add_track (copyTrack g now st0)).tracks
                = tgt.tracks ++ [(g, copyTrack g now st0)] := by
              show dictSet tgt.tracks (copyTrack g now st0).id (copyTrack g now st0)
                  = tgt.tracks ++ [(g, copyTrack g now st0)]
              exact dictSet_append_of_fresh _ g _
                (dictGet_none_of_not_mem_keys _ g
                  (fun hmem' => absurd (hkeys g hmem') (lt_irrefl g)))
            refine ih (tgt.add_track (copyTrack g now st0)) (dictSet acc sid0 g)
              (g + 1) sid st ex htail hnd'
              (by rw [dictGet_dictSet_ne acc sid0 sid g hsid_ne]; exact hacc)
              ?_ ?_
            · intro k hk
              rw [htr] at hk
              simp only [List.map_append, List.mem_append] at hk
              rcases hk with hk | hk
              · exact Nat.lt_succ_of_lt (hkeys k hk)
              · simp at hk
                omega
            · rw [htr]
              exact findExistingByPath_append tgt.tracks _ st.file_path ex hex

/-- Zeta-expanded form of `merge_collections`. -/
theorem merge_collections_eq (src tgt : Collection) (g : Nat) (now : String) :
    merge_collections src tgt g now
      = (mergePlaylistsAux src.playlists
          (mergeTracksAux now src.tracks tgt [] g).1
          (mergeTracksAux now src.tracks tgt [] g).2.1
          (mergeTracksAux now src.tracks tgt [] g).2.2).1 := rfl

/-- Claim C7: deduplication by exact file path.  Part 1: when every source
track's file path already occurs in the target, the merge adds zero tracks,
and every copied playlist's track-id list is the source list translated so
that each source id is replaced by the id of the first path-matching
target track.  Part 2: a source track with no path match is copied into
the target as a new track under a fresh id.  Part 3: in an arbitrary mixed
source, every source track whose path matches a track already in the
target before the merge is mapped to that first matching track's id in the
remapping table that every copied playlist is translated through. -/
theorem claim_C7_merge_dedup_by_path :
    (∀ (now : String) (g : Nat) (src tgt : Collection),
        (∀ kv ∈ src.tracks,
          (findExistingByPath tgt.tracks (Prod.snd kv).file_path).isSome = true) →
        (src.tracks.map Prod.fst).Nodup →
        (∀ k ∈ tgt.playlists.map Prod.fst, k < g) →
        (merge_collections src tgt g now).tracks = tgt.tracks
        ∧ (merge_collections src tgt g now).playlists
            = tgt.playlists
              ++ translatedPlaylists
                  (src.tracks.map (fun kv =>
                    (kv.1, firstMatchId tgt (Prod.snd kv).file_path)))
                  src.playlists g)
    ∧ (∀ (now : String) (sid : Nat) (st : Track) (tgt : Collection) (g : Nat),
        findExistingByPath tgt.tracks st.file_path = none →
        dictGet tgt.tracks g = none →
        (mergeTracksAux now [(sid, st)] tgt [] g).1.tracks
          = tgt.tracks ++ [(g, copyTrack g now st)]
        ∧ (mergeTracksAux now [(sid, st)] tgt [] g).2.1 = [(sid, g)])
    ∧ (∀ (now : String) (g : Nat) (src tgt : Collection) (sid : Nat)
          (st ex : Track),
        (sid, st) ∈ src.tracks →
        (src.tracks.map Prod.fst).Nodup →
        (∀ k ∈ tgt.tracks.map Prod.fst, k < g) →
        findExistingByPath tgt.tracks st.file_path = some ex →
        dictGet (mergeTracksAux now src.tracks tgt [] g).2.1 sid = some ex.id) := by
  refine ⟨?_, ?_, ?_⟩
  · intro now g src tgt hall hnd hlt
    have hmt := mergeTracksAux_all_matched now src.tracks tgt [] g hall hnd
      (fun sid _ => rfl)
    rw [merge_collections_eq, hmt]
    exact mergePlaylistsAux_spec src.playlists tgt _ g hlt
  · intro now sid st tgt g hnone hfresh
    rw [mergeTracksAux_cons, hnone]
    constructor
    · show dictSet tgt.tracks (copyTrack g now st).id (copyTrack g now st)
          = tgt.tracks ++ [(g, copyTrack g now st)]
      exact dictSet_append_of_fresh _ g _ hfresh
    · rfl
  · intro now g src tgt sid st ex hmem hnd hkeys hex
    exact mergeTracksAux_mapping_of_match now src.tracks tgt [] g sid st ex
      hmem hnd rfl hkeys hex

/-- Source and target of the C7 witness: the single source track's path
"/x.mp3" already exists in the target under id 7. -/
def srcW : Collection :=
  { name := "S", tracks := [(1, mkTrack 1 "/x.mp3" [] [])],
    playlists := [(4, .mk 4 "SP" "" [1] none [])], root_playlists := [4] }

/-- Target collection of the C7 witness. -/
def tgtW : Collection :=
  { name := "T", tracks := [(7, mkTrack 7 "/x.mp3" [] [])],
    playlists := [], root_playlists := [] }

/-- Witness for claim C7's theorem: merging `srcW` into `tgtW` adds no
track, and the copied playlist carries the existing target id 7 in place
of the source id 1; a path with no match is copied under the fresh id. -/
theorem claim_C7_merge_dedup_by_path_witness :
    (merge_collections srcW tgtW 10 "n").tracks = [(7, mkTrack 7 "/x.mp3" [] [])]
    ∧ (merge_collections srcW tgtW 10 "n").playlists
        = [(10, Playlist.mk 10 "SP" "" [7] none [])]
    ∧ (mergeTracksAux "n" [(5, mkTrack 5 "/y.mp3" [] [])]
        { name := "T2", tracks := [], playlists := [], root_playlists := [] }
        [] 3).1.tracks
        = [(3, copyTrack 3 "n" (mkTrack 5 "/y.mp3" [] []))]
    ∧ dictGet (mergeTracksAux "n" srcW.tracks tgtW [] 10).2.1 1 = some 7 := by
  have h := claim_C7_merge_dedup_by_path.1 "n" 10 srcW tgtW
    (by
      intro kv hkv
      have hkv' : kv ∈ [(1, mkTrack 1 "/x.mp3" [] [])] := hkv
      rw [List.mem_singleton] at hkv'
      subst hkv'
      rfl)
    (by decide)
    (fun k hk => absurd hk (List.not_mem_nil k))
  have h2 := claim_C7_merge_dedup_by_path.2.1 "n" 5 (mkTrack 5 "/y.mp3" [] [])
    { name := "T2", tracks := [], playlists := [], root_playlists := [] } 3 rfl rfl
  have h3 := claim_C7_merge_dedup_by_path.2.2 "n" 10 srcW tgtW 1
    (mkTrack 1 "/x.mp3" [] []) (mkTrack 7 "/x.mp3" [] [])
    (List.mem_cons_self _ _) (by decide)
    (by
      intro k hk
      have hk' : k ∈ [7] := hk
      rw [List.mem_singleton] at hk'
      omega)
    rfl
  exact ⟨h.1, h.2.trans (by rfl), h2.1, h3.trans (by rfl)⟩

end DJConv
